import Mathlib

/-!
Verification of the DALI MultiPaste compositing core against its design
specification.  The definitions below are shallow embeddings of the C++
sources:

* `src/dali/kernels/imgproc/paste/paste_gpu.h` — GPU descriptor packer,
  resource sizing (`PasteGPU::Setup`) and the `PasteKernel` pixel compositor;
* `src/dali/operators/image/paste/multipaste.cc` / `.h` — the CPU operator
  (`MultiPasteCpu::SetupImpl` / `RunImpl`).

Machine integers are modelled as `Int`/`Nat` (no overflow is relevant at the
sizes involved), device pointers as functions from flat offsets to values,
and null pointers as `Option.none`.  Components of the repository that are
only declared but whose code is not in the sources (the `PasteCpu` copy
kernel, `BlockSetup`, `ScratchpadEstimator`, `ConvertSat`) are modelled from
the specification and marked as such in their doc comments.
-/

/-- A 2-component integer vector, as `ivec2` in the sources.  Component `[0]`
is the slow (row / y) axis and component `[1]` the fast (column / x) axis;
we name them `y` and `x`. -/
structure IVec2 where
  y : Int
  x : Int
deriving DecidableEq

/-- `paste::GridCellGPU` (paste_gpu.h lines 32-36).  The `in` pointer is an
optional flat source memory (`none` models `nullptr`).  Of `in_pitch` only
component `[1]` is ever initialised and read by the code, so only that
component is modelled (`in_pitch_x`). -/
structure GridCellGPU where
  src : Option (Int → Int)
  cell_start : IVec2
  cell_end : IVec2
  in_anchor : IVec2
  in_pitch_x : Int

/-- `paste::SampleDescriptorGPU` (paste_gpu.h lines 38-43).  The `out`
pointer is modelled separately as the output memory threaded through the
kernel.  Of `out_pitch` only component `[1]` is initialised and read.
Cell counts are natural numbers (they are non-negative sizes used as
array extents). -/
structure SampleDescriptorGPU where
  grid_cell_start_idx : Nat
  cell_counts_y : Nat
  cell_counts_x : Nat
  out_pitch_x : Int
deriving DecidableEq

/-- `BlockDesc` as used by the kernel (block_setup.h is not part of the
sources; the kernel reads exactly the fields `sample_idx`, `start` and
`end`): one rectangular work block of one sample's output canvas. -/
structure BlockDesc where
  sample_idx : Nat
  start : IVec2
  end_ : IVec2
deriving DecidableEq

/-- `paste::MultiPasteSampleInput` (paste_gpu_input.h, declared but not in
the sources; the packer reads exactly these fields). -/
structure MultiPasteSampleInput where
  grid_cell_start_idx : Nat
  cell_counts_y : Nat
  cell_counts_x : Nat
deriving DecidableEq

/-- `paste::GridCellInput` (paste_gpu_input.h, declared but not in the
sources; the packer reads exactly these fields).  `input_idx = -1` marks a
background cell. -/
structure GridCellInput where
  input_idx : Int
  cell_start : IVec2
  cell_end : IVec2
  in_anchor : IVec2
deriving DecidableEq

/-- One input image of the GPU batch: flat element memory plus its
(H, W, C) shape.  The packer reads `data` and `shape[1]`; `PasteGPU::Setup`
reads the channel extent `shape[2]`. -/
structure InImageGPU where
  data : Int → Int
  shape : Int × Int × Int

/-- One output canvas of the GPU batch: its (H, W, C) shape.  The packer
reads `shape[1]`. -/
structure OutImageGPU where
  shape : Int × Int × Int

/-- Bounded while-loop counter advance: `advanceWhile p fuel g` increments
`g` while `p g` holds, mirroring the cursor loops
`while (cond) idx++;` of `PasteKernel`.  The C loops are unbounded; under
the grid-coverage invariant they stop within the grid extent, so a fuel
equal to that extent makes the function total without changing its value
on well-formed inputs. -/
def advanceWhile (p : Nat → Bool) : Nat → Nat → Nat
  | 0, g => g
  | fuel + 1, g => if p g then advanceWhile p fuel (g + 1) else g

/-- The arithmetic sequence `v, v+stride, v+2*stride, ...` of loop indices
below `stop`, with explicit fuel (sufficient whenever `1 ≤ stride`). -/
def strideSeqAux (stride stop : Int) : Nat → Int → List Int
  | 0, _ => []
  | fuel + 1, v => if v < stop then v :: strideSeqAux stride stop fuel (v + stride) else []

/-- The indices visited by a CUDA grid-stride loop
`for (v = v0; v < stop; v += stride)` with `1 ≤ stride`. -/
def strideSeq (v0 stride stop : Int) : List Int :=
  strideSeqAux stride stop (stop - v0).toNat v0

/-- Pointwise store: the write `out[off] = v`. -/
def writeAt (out : Int → Int) (off v : Int) : Int → Int :=
  fun o => if o = off then v else out o

/-- The value `PasteKernel` stores for one output position resolved to
`cell` (paste_gpu.h lines 126-132): `0` for a background cell (null source
pointer), otherwise the converted source element at
`(y - cell_start[0] + in_anchor[0]) * in_pitch[1] +
 (x - cell_start[1] + in_anchor[1])`.  The saturating conversion
`ConvertSat` (dali/core/convert.h, a provided primitive per the spec) is
abstracted as the parameter `conv`. -/
def cellWrite (conv : Int → Int) (cell : GridCellGPU) (y x : Int) : Int :=
  match cell.src with
  | none => 0
  | some src =>
      conv (src ((y - cell.cell_start.y + cell.in_anchor.y) * cell.in_pitch_x
                 + (x - cell.cell_start.x + cell.in_anchor.x)))

/-- The inner (x) loop of `PasteKernel` (paste_gpu.h lines 122-133) over the
column indices `xs` of one output row `y`, threading the forward-only column
cursor `grid_x`.  Besides the output memory it accumulates a ghost trace of
`(y, x, resolved flat cell index)` triples — specification-only data that
does not influence the writes. -/
def pasteRow (conv : Int → Int) (cells : Nat → GridCellGPU) (cols : Nat)
    (outPitch : Int) (grid_y : Nat) (y : Int) :
    List Int → Nat → (Int → Int) → List (Int × Int × Nat) →
    ((Int → Int) × List (Int × Int × Nat))
  | [], _, out, tr => (out, tr)
  | x :: xs, grid_x, out, tr =>
      let gx := advanceWhile
        (fun g => decide ((cells (grid_y * cols + g)).cell_end.x ≤ x)) cols grid_x
      let v := cellWrite conv (cells (grid_y * cols + gx)) y x
      pasteRow conv cells cols outPitch grid_y y xs gx
        (writeAt out (y * outPitch + x) v) (tr ++ [(y, x, grid_y * cols + gx)])

/-- The outer (y) loop of `PasteKernel` (paste_gpu.h lines 119-134) over the
row indices `ys`, threading the forward-only row cursor `grid_y`; each row
restarts the column cursor at `min_grid_x` exactly as the source does. -/
def pasteRows (conv : Int → Int) (cells : Nat → GridCellGPU) (rows cols : Nat)
    (outPitch : Int) (xs : List Int) (min_grid_x : Nat) :
    List Int → Nat → (Int → Int) → List (Int × Int × Nat) →
    ((Int → Int) × List (Int × Int × Nat))
  | [], _, out, tr => (out, tr)
  | y :: ys, grid_y, out, tr =>
      let gy := advanceWhile
        (fun g => decide ((cells (g * cols)).cell_end.y ≤ y)) rows grid_y
      let st := pasteRow conv cells cols outPitch gy y xs min_grid_x out tr
      pasteRows conv cells rows cols outPitch xs min_grid_x ys gy st.1 st.2

/-- `paste::PasteKernel` (paste_gpu.h lines 102-135) for one thread of one
work block: `blockIdxX` selects the block, `tIdx`/`bDim` are the CUDA thread
index and block dimensions.  `out` is the sample's output memory (the
`sample.out` pointer); the result pairs the final memory with the ghost
trace of resolved cells.  Cursor while-loops carry the grid extents as fuel
(see `advanceWhile`). -/
def PasteKernel (samples : Nat → SampleDescriptorGPU) (gridCells : Nat → GridCellGPU)
    (blocks : Nat → BlockDesc) (conv : Int → Int)
    (blockIdxX : Nat) (tIdx bDim : IVec2) (out : Int → Int) :
    (Int → Int) × List (Int × Int × Nat) :=
  let block := blocks blockIdxX
  let sample := samples block.sample_idx
  let myCells := fun i => gridCells (sample.grid_cell_start_idx + i)
  let cols := sample.cell_counts_x
  let min_grid_x := advanceWhile
    (fun g => decide ((myCells g).cell_end.x ≤ tIdx.x + block.start.x)) cols 0
  let ys := strideSeq (tIdx.y + block.start.y) bDim.y block.end_.y
  let xs := strideSeq (tIdx.x + block.start.x) bDim.x block.end_.x
  pasteRows conv myCells sample.cell_counts_y cols sample.out_pitch_x xs min_grid_x ys 0 out []

/-- Whether the half-open rectangle `[cell_start, cell_end)` of `cell`
contains the position `(y, x)`. -/
def cellContains (cell : GridCellGPU) (y x : Int) : Bool :=
  decide (cell.cell_start.y ≤ y) && decide (y < cell.cell_end.y) &&
  decide (cell.cell_start.x ≤ x) && decide (x < cell.cell_end.x)

/-- Naive linear scan for a containing cell, from position `i` with `fuel`
cells left to inspect. -/
def naiveScan (cells : Nat → GridCellGPU) (y x : Int) : Nat → Nat → Option Nat
  | _, 0 => none
  | i, fuel + 1 =>
      if cellContains (cells i) y x then some i else naiveScan cells y x (i + 1) fuel

/-- The naive per-pixel search of the specification: scan all `n` cells of
the sample in order and return the first whose `[cell_start, cell_end)`
rectangle contains `(y, x)` (under the grid invariant that cell is unique). -/
def naiveFindCell (cells : Nat → GridCellGPU) (n : Nat) (y x : Int) : Option Nat :=
  naiveScan cells y x 0 n

/-- The list of `(y, x)` output positions one kernel thread scans, in the
kernel's row-major order. -/
def scannedPixels (block : BlockDesc) (tIdx bDim : IVec2) : List (Int × Int) :=
  (strideSeq (tIdx.y + block.start.y) bDim.y block.end_.y).flatMap
    (fun y => (strideSeq (tIdx.x + block.start.x) bDim.x block.end_.x).map (fun x => (y, x)))

/-- The row-major monotonic-boundary grid invariant of the specification:
the sample's `rows × cols` cells (in row-major order) form a dense product
grid with strictly increasing row boundaries `yb 0 < yb 1 < ... < yb rows`
and column boundaries `xb 0 < ... < xb cols`; cell `(r, c)` is the
rectangle `[yb r, yb (r+1)) × [xb c, xb (c+1))`. -/
def ProductGrid (cells : Nat → GridCellGPU) (rows cols : Nat) (yb xb : Nat → Int) : Prop :=
  0 < rows ∧ 0 < cols ∧
  (∀ r < rows, yb r < yb (r + 1)) ∧
  (∀ c < cols, xb c < xb (c + 1)) ∧
  (∀ r < rows, ∀ c < cols,
    (cells (r * cols + c)).cell_start = ⟨yb r, xb c⟩ ∧
    (cells (r * cols + c)).cell_end = ⟨yb (r + 1), xb (c + 1)⟩)

/-- `paste::CreateSampleDescriptors` (paste_gpu.h lines 62-99): flattens the
per-sample inputs and grid cells into device descriptor arrays.  The sample
loop sets `out_pitch[1] = out[i].shape[1] * channels`; the grid loop copies
each cell, resolving `input_idx = -1` to a null source pointer and the
sentinel pitch `-1`, then scales the fast-axis components `cell_start[1]`,
`cell_end[1]`, `in_anchor[1]` and the pitch by `channels`. -/
def CreateSampleDescriptors (outImgs : Nat → OutImageGPU) (inImgs : Nat → InImageGPU)
    (samples : List MultiPasteSampleInput) (grid : List GridCellInput) (channels : Int) :
    List SampleDescriptorGPU × List GridCellGPU :=
  ((List.range samples.length).map (fun i =>
      let s := samples.getD i ⟨0, 0, 0⟩
      { grid_cell_start_idx := s.grid_cell_start_idx
        cell_counts_y := s.cell_counts_y
        cell_counts_x := s.cell_counts_x
        out_pitch_x := (outImgs i).shape.2.1 * channels }),
   (List.range grid.length).map (fun j =>
      let g := grid.getD j ⟨-1, ⟨0, 0⟩, ⟨0, 0⟩, ⟨0, 0⟩⟩
      { src := if g.input_idx = -1 then none else some (inImgs g.input_idx.toNat).data
        cell_start := ⟨g.cell_start.y, g.cell_start.x * channels⟩
        cell_end := ⟨g.cell_end.y, g.cell_end.x * channels⟩
        in_anchor := ⟨g.in_anchor.y, g.in_anchor.x * channels⟩
        in_pitch_x := (if g.input_idx = -1 then -1 else (inImgs g.input_idx.toNat).shape.2.1)
                      * channels }))

/-- The descriptor-packing step of `PasteGPU::Run` (paste_gpu.h lines
184-191): `Run` invokes `CreateSampleDescriptors` with the channel-count
argument hard-coded to the literal `3`. -/
def PasteGPURunPack (outImgs : Nat → OutImageGPU) (inImgs : Nat → InImageGPU)
    (samples : List MultiPasteSampleInput) (grid : List GridCellInput) :
    List SampleDescriptorGPU × List GridCellGPU :=
  CreateSampleDescriptors outImgs inImgs samples grid 3

/-- The channel extent (last shape component) of an image shape. -/
def lastExtent (s : Int × Int × Int) : Int := s.2.2

/-- The channel-uniformity check of `PasteGPU::Setup` (paste_gpu.h lines
159-167): every sample's channel extent must equal the first sample's.
An empty batch passes the loop vacuously (reading `shape[0]` of an empty
list is undefined in the C++; the check is only meaningful for a non-empty
batch). -/
def channelsUniform (inShapes : List (Int × Int × Int)) : Bool :=
  match inShapes with
  | [] => true
  | s0 :: _ => inShapes.all (fun s => lastExtent s == lastExtent s0)

/-- `KernelRequirements` as produced by `PasteGPU::Setup`: the list of
scratch byte requirements registered with the estimator. -/
structure KernelRequirements where
  scratch_sizes : List Nat
deriving DecidableEq

/-- `PasteGPU::Setup` (paste_gpu.h lines 153-181).  After enforcing channel
uniformity it registers, in order, `sizeof(SampleDesc) * (number of
samples)`, `sizeof(GridCellDesc) * (number of grid cells)` and
`sizeof(BlockDesc) * (number of work blocks)` bytes of GPU scratch.
`sizeofSample`, `sizeofCell`, `sizeofBlock` model the C++ `sizeof` values.
`numBlocks` models the block count produced by
`BlockSetup::SetupBlocks` (dali/kernels/common/block_setup.h, not in the
sources); the `ScratchpadEstimator` (also not in the sources) is modelled
from the spec as returning the list of named byte requirements in the order
they are added.  Setup reads only shapes and counts, never pixel data. -/
def PasteGPUSetup (sizeofSample sizeofCell sizeofBlock : Nat)
    (inShapes : List (Int × Int × Int)) (numSamples numGridCells numBlocks : Nat) :
    Except String KernelRequirements :=
  if channelsUniform inShapes then
    .ok ⟨[sizeofSample * numSamples, sizeofCell * numGridCells, sizeofBlock * numBlocks]⟩
  else
    .error "Number of channels for every image in batch must be equal"

/-- `DALIDataType`, restricted to the types the MultiPaste type switches
mention plus an unsupported representative (`f64`) and `DALI_NO_TYPE`. -/
inductive DALIDataType
  | u8
  | i16
  | i32
  | f32
  | f64
  | noType
deriving DecidableEq

/-- The element types admitted by the `TYPE_SWITCH`es of
`MultiPasteCpu::SetupImpl` / `RunImpl`: `(uint8_t, int16_t, int32_t, float)`. -/
def supportedType : DALIDataType → Bool
  | .u8 => true
  | .i16 => true
  | .i32 => true
  | .f32 => true
  | _ => false

/-- The element size in bytes of each modelled data type (C++ `sizeof`). -/
def sizeOfType : DALIDataType → Nat
  | .u8 => 1
  | .i16 => 2
  | .i32 => 4
  | .f32 => 4
  | .f64 => 8
  | .noType => 0

/-- Output-type resolution of `MultiPasteOp::AcquireArguments`
(multipaste.h lines 62-66): the `dtype` argument when set, otherwise the
input element type. -/
def resolveOutputType (outputTypeArg inputType : DALIDataType) : DALIDataType :=
  if outputTypeArg ≠ .noType then outputTypeArg else inputType

/-- `MultiPasteCpu::SetupImpl` (multipaste.cc lines 59-87): after the two
type switches (failing on an unsupported input or output type), sample `i`
of the batch is declared with shape
`(output_size[i][0], output_size[i][1], input_shape[i][2])` and the resolved
output element type. -/
def multiPasteSetupImpl (inputType outputTypeArg : DALIDataType)
    (outputSize : List (Int × Int)) (inShapes : List (Int × Int × Int)) :
    Except String (List (Int × Int × Int) × DALIDataType) :=
  let outputType := resolveOutputType outputTypeArg inputType
  if supportedType inputType then
    if supportedType outputType then
      .ok ((List.range inShapes.length).map (fun i =>
          ((outputSize.getD i (0, 0)).1, (outputSize.getD i (0, 0)).2,
           (inShapes.getD i (0, 0, 0)).2.2)), outputType)
    else .error "Unsupported output type"
  else .error "Unsupported input type"

/-- Byte-level zeroing: `memset(buf, 0, n)` on a byte-addressed buffer. -/
def memsetZero (buf : Nat → Nat) (n : Nat) : Nat → Nat :=
  fun i => if i < n then 0 else buf i

/-- The canvas zeroing of `MultiPasteCpu::RunImpl` (multipaste.cc lines
110-111): `memset(to_zero.data, 0, shape[0] * shape[1] * shape[2])`.
`memset`'s count is in BYTES, and the product of the shape extents is the
ELEMENT count of the canvas, independent of `sizeof(OutputType)`; the model
is byte-addressed to capture exactly what is zeroed. -/
def multiPasteZeroInit (buf : Nat → Nat) (h w c : Nat) : Nat → Nat :=
  memsetZero buf (h * w * c)

/-- The output buffer of one sample with an empty paste list after
`MultiPasteCpu::RunImpl`: `paste_count = 0`, so both scheduling branches add
no paste work and the buffer is exactly the zero-initialised one. -/
def multiPasteEmptySample (buf : Nat → Nat) (h w c : Nat) : Nat → Nat :=
  multiPasteZeroInit buf h w c

/-- Element `i` of an `s`-byte-element buffer equals the background value 0,
read at byte granularity: all `s` of its bytes are zero. -/
def elementZero (buf : Nat → Nat) (s i : Nat) : Prop :=
  ∀ b < s, buf (i * s + b) = 0

instance (buf : Nat → Nat) (s i : Nat) : Decidable (elementZero buf s i) :=
  inferInstanceAs (Decidable (∀ b < s, buf (i * s + b) = 0))

/-- One paste iteration of a sample, as consumed by `MultiPasteCpu::RunImpl`
(multipaste.cc lines 113-155): source sample index (`in_idx`), source
anchor, selection shape and output anchor (2D, as produced by
`GetInAnchors` / `GetShape` / `GetOutAnchors`). -/
structure PasteIter where
  fromIdx : Nat
  inAnchor : Int × Int
  inShape : Int × Int
  outAnchor : Int × Int
deriving DecidableEq

/-- Whether position `p` lies in the half-open rectangle
`[anchor, anchor + shape)`. -/
def inRect (anchor shape : Int × Int) (p : Int × Int) : Prop :=
  anchor.1 ≤ p.1 ∧ p.1 < anchor.1 + shape.1 ∧ anchor.2 ≤ p.2 ∧ p.2 < anchor.2 + shape.2

instance (anchor shape p : Int × Int) : Decidable (inRect anchor shape p) :=
  inferInstanceAs (Decidable (_ ∧ _ ∧ _ ∧ _))

/-- Modelled from the spec: the `PasteCpu` copy kernel
(dali/kernels/imgproc/paste/paste.h, not in the sources) run by each
`RunImpl` work item.  It copies the source selection to the destination
rectangle with saturating conversion: for each offset `q` within `shape`,
`out[out_anchor + q] = ConvertSat(in[in_anchor + q])`; pixels outside the
destination rectangle are untouched.  Canvases are 2D pixel grids (the
channel extent is orthogonal to every claim about this path); `srcs k` is
the pixel memory of input sample `k` and `conv` the saturating
conversion. -/
def pasteOne (conv : Int → Int) (srcs : Nat → Int × Int → Int) (it : PasteIter)
    (canvas : Int × Int → Int) : Int × Int → Int :=
  fun p =>
    if inRect it.outAnchor it.inShape p then
      conv (srcs it.fromIdx
        (p.1 - it.outAnchor.1 + it.inAnchor.1, p.2 - it.outAnchor.2 + it.inAnchor.2))
    else canvas p

/-- The sequential execution of a sample's paste iterations in list order —
the overlap branch of `MultiPasteCpu::RunImpl` (multipaste.cc lines
134-155), where all iterations of the sample run inside a single work item
in iteration order. -/
def runSeq (conv : Int → Int) (srcs : Nat → Int × Int → Int) (iters : List PasteIter)
    (canvas : Int × Int → Int) : Int × Int → Int :=
  iters.foldl (fun c it => pasteOne conv srcs it c) canvas

/-- Destination-disjointness of two paste iterations: their destination
rectangles share no pixel (the `no_intersections_` precondition of the
parallel branch, multipaste.cc lines 113-133). -/
def destDisjoint (a b : PasteIter) : Prop :=
  ∀ p : Int × Int, ¬(inRect a.outAnchor a.inShape p ∧ inRect b.outAnchor b.inShape p)

/-- A saturating conversion to `uint8_t`, used to instantiate the abstract
`conv` parameter in witnesses (modelled from the spec: `ConvertSat` clamps
to the representable range of the destination type). -/
def convertSatU8 (v : Int) : Int :=
  max 0 (min 255 v)

/-- The index of the grid interval containing `v` along one axis with
boundary function `b` (cell `t` spans `[b t, b (t+1))`): the first `t` with
`v < b (t + 1)`, found by the same forward advance the kernel cursor
performs, with fuel `n` (the number of cells on the axis). -/
def leastIdx (b : Nat → Int) (n : Nat) (v : Int) : Nat :=
  advanceWhile (fun t => decide (b (t + 1) ≤ v)) n 0

/-- Replay of a resolution trace against the output memory: performs, in
order, the store `out[y * outPitch + x] = cellWrite conv (cells i) y x` for
every `(y, x, i)` entry. -/
def applyTrace (conv : Int → Int) (cells : Nat → GridCellGPU) (outPitch : Int)
    (tr : List (Int × Int × Nat)) (out : Int → Int) : Int → Int :=
  tr.foldl
    (fun o e => writeAt o (e.1 * outPitch + e.2.1) (cellWrite conv (cells e.2.2) e.1 e.2.1))
    out

/-- The index of the unique containing cell found by the naive per-pixel
search (`n`, the total cell count, as default for the not-found case, which
does not occur on a covering grid). -/
def naiveCellIdx (cells : Nat → GridCellGPU) (n : Nat) (y x : Int) : Nat :=
  (naiveFindCell cells n y x).getD n

/-! ### Concrete data used to evaluate the theorems on closed inputs -/

/-- Row boundaries of a concrete 2×2 product grid: 0, 2, 4. -/
def wyb : Nat → Int := fun k => 2 * k

/-- Column boundaries of a concrete 2×2 product grid: 0, 3, 6. -/
def wxb : Nat → Int := fun k => 3 * k

/-- A concrete grid-cell array realizing the 2×2 product grid on a 4×6
canvas; cell 3 (bottom-right) is a background cell. -/
def wCellsA : Nat → GridCellGPU := fun i =>
  { src := if i = 3 then none else some (fun o => o + i)
    cell_start := ⟨2 * (i / 2 : Nat), 3 * (i % 2 : Nat)⟩
    cell_end := ⟨2 * (i / 2 : Nat) + 2, 3 * (i % 2 : Nat) + 3⟩
    in_anchor := ⟨0, 0⟩
    in_pitch_x := 10 }

/-- A concrete sample descriptor for the 4×6 canvas above. -/
def wSamplesA : Nat → SampleDescriptorGPU := fun _ => ⟨0, 2, 2, 6⟩

/-- A concrete work block covering the whole 4×6 canvas of sample 0. -/
def wBlocksA : Nat → BlockDesc := fun _ => ⟨0, ⟨0, 0⟩, ⟨4, 6⟩⟩

/-- Default slot values for out-of-range `getD` reads (which never occur in
the verified statements; C++ has no such default). -/
def dSampleDesc : SampleDescriptorGPU := ⟨0, 0, 0, 0⟩

/-- Default grid-cell descriptor for out-of-range `getD` reads. -/
def dCellDesc : GridCellGPU := ⟨none, ⟨0, 0⟩, ⟨0, 0⟩, ⟨0, 0⟩, 0⟩

/-- Default grid-cell input for out-of-range `getD` reads. -/
def dGridIn : GridCellInput := ⟨-1, ⟨0, 0⟩, ⟨0, 0⟩, ⟨0, 0⟩⟩

/-- Default paste iteration for out-of-range `getD` reads. -/
def dIter : PasteIter := ⟨0, (0, 0), (0, 0), (0, 0)⟩

/-- A concrete single-channel output batch (channel extent 1). -/
def wOutImgs1 : Nat → OutImageGPU := fun _ => ⟨(4, 5, 1)⟩

/-- A concrete single-channel input batch (channel extent 1). -/
def wInImgs1 : Nat → InImageGPU := fun _ => ⟨fun o => o, (4, 5, 1)⟩

/-- A concrete packer sample-input list. -/
def wSampleInputs1 : List MultiPasteSampleInput := [⟨0, 2, 2⟩]

/-- A concrete packer grid-cell-input list; cells 1 and 3 are background. -/
def wGridInputs1 : List GridCellInput :=
  [⟨0, ⟨0, 0⟩, ⟨2, 2⟩, ⟨1, 1⟩⟩, ⟨-1, ⟨0, 2⟩, ⟨2, 5⟩, ⟨0, 0⟩⟩,
   ⟨0, ⟨2, 0⟩, ⟨4, 3⟩, ⟨0, 0⟩⟩, ⟨-1, ⟨2, 3⟩, ⟨4, 5⟩, ⟨0, 0⟩⟩]

/-- Concrete paste iterations: `wIterA`, `wIterB`, `wIterC` all paste a 1×1
rectangle at output pixel (0,0) (mutually overlapping); `wIterD2` pastes a
1×1 rectangle at (5,5), disjoint from `wIterA`. -/
def wIterA : PasteIter := ⟨0, (0, 0), (1, 1), (0, 0)⟩

/-- Second overlapping concrete iteration (see `wIterA`). -/
def wIterB : PasteIter := ⟨1, (0, 0), (1, 1), (0, 0)⟩

/-- Third overlapping concrete iteration (see `wIterA`). -/
def wIterC : PasteIter := ⟨2, (0, 0), (1, 1), (0, 0)⟩

/-- A concrete iteration whose destination is disjoint from `wIterA`. -/
def wIterD2 : PasteIter := ⟨1, (0, 0), (1, 1), (5, 5)⟩

/-- Concrete source images for the CPU path: sample `k` is constant `10 + k`. -/
def wSrcs : Nat → Int × Int → Int := fun k _ => 10 + k

/-! ### Helper lemmas: while-loop advance, stride sequences, boundary search -/

theorem advanceWhile_spec (p : Nat → Bool) (t : Nat) :
    ∀ fuel g, g ≤ t → t - g ≤ fuel →
      (∀ k, g ≤ k → k < t → p k = true) → p t = false →
      advanceWhile p fuel g = t := by
  intro fuel
  induction fuel with
  | zero =>
      intro g hg hf _ _
      have : t = g := by omega
      simp [advanceWhile, this]
  | succ n ih =>
      intro g hg hf htrue hfalse
      by_cases hgt : g = t
      · subst hgt
        simp [advanceWhile, hfalse]
      · have hlt : g < t := lt_of_le_of_ne hg hgt
        have hpg : p g = true := htrue g le_rfl hlt
        simp only [advanceWhile, hpg, if_true]
        exact ih (g + 1) hlt (by omega) (fun k hk1 hk2 => htrue k (by omega) hk2) hfalse

theorem strideSeqAux_mem_ge (stride stop : Int) (hs : 1 ≤ stride) :
    ∀ fuel v u, u ∈ strideSeqAux stride stop fuel v → v ≤ u := by
  intro fuel
  induction fuel with
  | zero => intro v u hu; simp [strideSeqAux] at hu
  | succ n ih =>
      intro v u hu
      unfold strideSeqAux at hu
      by_cases h : v < stop
      · simp only [h, if_true, List.mem_cons] at hu
        rcases hu with rfl | hu
        · exact le_rfl
        · have := ih (v + stride) u hu
          omega
      · simp [h] at hu

theorem strideSeqAux_mem_lt (stride stop : Int) :
    ∀ fuel v u, u ∈ strideSeqAux stride stop fuel v → u < stop := by
  intro fuel
  induction fuel with
  | zero => intro v u hu; simp [strideSeqAux] at hu
  | succ n ih =>
      intro v u hu
      unfold strideSeqAux at hu
      by_cases h : v < stop
      · simp only [h, if_true, List.mem_cons] at hu
        rcases hu with rfl | hu
        · exact h
        · exact ih (v + stride) u hu
      · simp [h] at hu

theorem strideSeqAux_pairwise (stride stop : Int) (hs : 1 ≤ stride) :
    ∀ fuel v, (strideSeqAux stride stop fuel v).Pairwise (· < ·) := by
  intro fuel
  induction fuel with
  | zero => intro v; simp [strideSeqAux]
  | succ n ih =>
      intro v
      unfold strideSeqAux
      by_cases h : v < stop
      · simp only [h, if_true, List.pairwise_cons]
        refine ⟨fun u hu => ?_, ih (v + stride)⟩
        have := strideSeqAux_mem_ge stride stop hs n (v + stride) u hu
        omega
      · simp [h]

theorem strideSeq_mem_ge (v0 stride stop : Int) (hs : 1 ≤ stride) (u : Int)
    (hu : u ∈ strideSeq v0 stride stop) : v0 ≤ u :=
  strideSeqAux_mem_ge stride stop hs _ v0 u hu

theorem strideSeq_mem_lt (v0 stride stop : Int) (u : Int)
    (hu : u ∈ strideSeq v0 stride stop) : u < stop :=
  strideSeqAux_mem_lt stride stop _ v0 u hu

theorem strideSeq_pairwise (v0 stride stop : Int) (hs : 1 ≤ stride) :
    (strideSeq v0 stride stop).Pairwise (· < ·) :=
  strideSeqAux_pairwise stride stop hs _ v0

theorem boundary_mono_le (b : Nat → Int) (n : Nat)
    (hmono : ∀ k < n, b k < b (k + 1)) :
    ∀ i j, i ≤ j → j ≤ n → b i ≤ b j := by
  intro i j hij hjn
  induction j with
  | zero =>
      have : i = 0 := by omega
      simp [this]
  | succ m ih =>
      by_cases h : i = m + 1
      · simp [h]
      · have hi : i ≤ m := by omega
        have h1 : b i ≤ b m := ih hi (by omega)
        have h2 : b m < b (m + 1) := hmono m (by omega)
        omega

theorem boundary_mono_lt (b : Nat → Int) (n : Nat)
    (hmono : ∀ k < n, b k < b (k + 1)) :
    ∀ i j, i < j → j ≤ n → b i < b j := by
  intro i j hij hjn
  have h1 : b i ≤ b (j - 1) := boundary_mono_le b n hmono i (j - 1) (by omega) (by omega)
  have h2 : b (j - 1) < b (j - 1 + 1) := hmono (j - 1) (by omega)
  have h3 : j - 1 + 1 = j := by omega
  rw [h3] at h2
  omega

theorem leastIdx_spec (b : Nat → Int) (n : Nat) (v : Int)
    (hmono : ∀ k < n, b k < b (k + 1)) (h0 : b 0 ≤ v) (hn : v < b n) (hpos : 0 < n) :
    leastIdx b n v < n ∧ b (leastIdx b n v) ≤ v ∧ v < b (leastIdx b n v + 1) ∧
      (∀ k < leastIdx b n v, b (k + 1) ≤ v) := by
  have hex : ∃ k, v < b (k + 1) := by
    refine ⟨n - 1, ?_⟩
    have : n - 1 + 1 = n := by omega
    rw [this]
    exact hn
  set t := Nat.find hex with ht
  have hpt : v < b (t + 1) := Nat.find_spec hex
  have hmin : ∀ k < t, b (k + 1) ≤ v := by
    intro k hk
    have := Nat.find_min hex hk
    omega
  have htn : t < n := by
    have : t ≤ n - 1 := Nat.find_min' hex (by
      have : n - 1 + 1 = n := by omega
      rw [this]; exact hn)
    omega
  have hbt : b t ≤ v := by
    rcases Nat.eq_zero_or_pos t with h | h
    · rw [h]; exact h0
    · have h1 := hmin (t - 1) (by omega)
      have h2 : t - 1 + 1 = t := by omega
      rwa [h2] at h1
  have heq : leastIdx b n v = t := by
    apply advanceWhile_spec _ t n 0 (by omega) (by omega)
    · intro k _ hk
      simp only [decide_eq_true_eq]
      exact hmin k hk
    · simp only [decide_eq_false_iff_not, not_le]
      exact hpt
  rw [heq]
  exact ⟨htn, hbt, hpt, hmin⟩

theorem leastIdx_monotone (b : Nat → Int) (n : Nat) (v w : Int)
    (hmono : ∀ k < n, b k < b (k + 1)) (hpos : 0 < n)
    (hv0 : b 0 ≤ v) (hvn : v < b n) (hw0 : b 0 ≤ w) (hwn : w < b n)
    (hvw : v ≤ w) : leastIdx b n v ≤ leastIdx b n w := by
  obtain ⟨_, _, _, hvmin⟩ := leastIdx_spec b n v hmono hv0 hvn hpos
  obtain ⟨_, _, hw2, _⟩ := leastIdx_spec b n w hmono hw0 hwn hpos
  by_contra hcon
  push_neg at hcon
  have := hvmin (leastIdx b n w) hcon
  omega

/-! ### Helper lemmas: trace replay -/

theorem applyTrace_cons (conv : Int → Int) (cells : Nat → GridCellGPU) (P : Int)
    (e : Int × Int × Nat) (tr : List (Int × Int × Nat)) (out : Int → Int) :
    applyTrace conv cells P (e :: tr) out =
      applyTrace conv cells P tr
        (writeAt out (e.1 * P + e.2.1) (cellWrite conv (cells e.2.2) e.1 e.2.1)) := rfl

theorem applyTrace_append (conv : Int → Int) (cells : Nat → GridCellGPU) (P : Int)
    (t1 t2 : List (Int × Int × Nat)) (out : Int → Int) :
    applyTrace conv cells P (t1 ++ t2) out =
      applyTrace conv cells P t2 (applyTrace conv cells P t1 out) := by
  simp [applyTrace, List.foldl_append]

theorem applyTrace_untouched (conv : Int → Int) (cells : Nat → GridCellGPU) (P : Int)
    (tr : List (Int × Int × Nat)) (out : Int → Int) (o : Int)
    (h : ∀ e ∈ tr, e.1 * P + e.2.1 ≠ o) :
    applyTrace conv cells P tr out o = out o := by
  induction tr generalizing out with
  | nil => rfl
  | cons e tr ih =>
      rw [applyTrace_cons, ih _ (fun u hu => h u (List.mem_cons_of_mem _ hu))]
      have hne : e.1 * P + e.2.1 ≠ o := h e (List.mem_cons_self e tr)
      simp only [writeAt]
      rw [if_neg (fun hc => hne hc.symm)]

theorem applyTrace_getValue (conv : Int → Int) (cells : Nat → GridCellGPU) (P : Int)
    (tr : List (Int × Int × Nat)) (out : Int → Int) (e : Int × Int × Nat)
    (he : e ∈ tr)
    (hdist : tr.Pairwise (fun a b => a.1 * P + a.2.1 ≠ b.1 * P + b.2.1)) :
    applyTrace conv cells P tr out (e.1 * P + e.2.1) =
      cellWrite conv (cells e.2.2) e.1 e.2.1 := by
  induction tr generalizing out with
  | nil => simp at he
  | cons a tr ih =>
      rw [List.pairwise_cons] at hdist
      obtain ⟨ha, htr⟩ := hdist
      rcases List.mem_cons.mp he with rfl | hemem
      · rw [applyTrace_cons,
          applyTrace_untouched _ _ _ _ _ _ (fun u hu hc => ha u hu hc.symm)]
        simp [writeAt]
      · rw [applyTrace_cons]
        exact ih _ hemem htr

/-! ### The cursor resolves the cells of a product grid -/

theorem pasteRow_spec (conv : Int → Int) (cells : Nat → GridCellGPU)
    (rows cols : Nat) (yb xb : Nat → Int) (P : Int)
    (hpg : ProductGrid cells rows cols yb xb)
    (r : Nat) (hr : r < rows) (y : Int) :
    ∀ (xs : List Int) (gx : Nat) (out : Int → Int) (tr : List (Int × Int × Nat)),
      (∀ x ∈ xs, xb 0 ≤ x ∧ x < xb cols) →
      xs.Pairwise (· ≤ ·) →
      (∀ x ∈ xs, gx ≤ leastIdx xb cols x) →
      pasteRow conv cells cols P r y xs gx out tr =
        (applyTrace conv cells P
            (xs.map (fun x => (y, x, r * cols + leastIdx xb cols x))) out,
         tr ++ xs.map (fun x => (y, x, r * cols + leastIdx xb cols x))) := by
  obtain ⟨hrpos, hcpos, hyb, hxb, hcell⟩ := hpg
  intro xs
  induction xs with
  | nil =>
      intro gx out tr _ _ _
      simp [pasteRow, applyTrace]
  | cons x xs ih =>
      intro gx out tr hbounds hsort hgx
      have hx0 : xb 0 ≤ x := (hbounds x (List.mem_cons_self x xs)).1
      have hxcols : x < xb cols := (hbounds x (List.mem_cons_self x xs)).2
      obtain ⟨ht1, ht2, ht3, ht4⟩ := leastIdx_spec xb cols x hxb hx0 hxcols hcpos
      set t := leastIdx xb cols x with htdef
      have hadv : advanceWhile
          (fun g => decide ((cells (r * cols + g)).cell_end.x ≤ x)) cols gx = t := by
        apply advanceWhile_spec _ t cols gx (hgx x (List.mem_cons_self x xs)) (by omega)
        · intro k _ hk2
          have hkcols : k < cols := by omega
          have hc := (hcell r hr k hkcols).2
          simp only [decide_eq_true_eq, hc]
          exact ht4 k hk2
        · have hc := (hcell r hr t ht1).2
          simp only [decide_eq_false_iff_not, not_le, hc]
          exact ht3
      have step : pasteRow conv cells cols P r y (x :: xs) gx out tr =
          pasteRow conv cells cols P r y xs t
            (writeAt out (y * P + x) (cellWrite conv (cells (r * cols + t)) y x))
            (tr ++ [(y, x, r * cols + t)]) := by
        simp only [pasteRow, hadv]
      rw [step]
      rw [ih t _ _ (fun u hu => hbounds u (List.mem_cons_of_mem _ hu))
            hsort.of_cons
            (fun u hu => by
              have hxu : x ≤ u := (List.pairwise_cons.mp hsort).1 u hu
              exact leastIdx_monotone xb cols x u hxb hcpos hx0 hxcols
                (hbounds u (List.mem_cons_of_mem _ hu)).1
                (hbounds u (List.mem_cons_of_mem _ hu)).2 hxu)]
      simp [applyTrace_cons]

theorem pasteRows_spec (conv : Int → Int) (cells : Nat → GridCellGPU)
    (rows cols : Nat) (yb xb : Nat → Int) (P : Int)
    (hpg : ProductGrid cells rows cols yb xb)
    (xs : List Int)
    (hxbounds : ∀ x ∈ xs, xb 0 ≤ x ∧ x < xb cols)
    (hxsort : xs.Pairwise (· ≤ ·))
    (min_gx : Nat)
    (hmin : ∀ x ∈ xs, min_gx ≤ leastIdx xb cols x) :
    ∀ (ys : List Int) (gy : Nat) (out : Int → Int) (tr : List (Int × Int × Nat)),
      (∀ y ∈ ys, yb 0 ≤ y ∧ y < yb rows) →
      ys.Pairwise (· ≤ ·) →
      (∀ y ∈ ys, gy ≤ leastIdx yb rows y) →
      pasteRows conv cells rows cols P xs min_gx ys gy out tr =
        (applyTrace conv cells P
            (ys.flatMap (fun y => xs.map (fun x =>
              (y, x, leastIdx yb rows y * cols + leastIdx xb cols x)))) out,
         tr ++ ys.flatMap (fun y => xs.map (fun x =>
              (y, x, leastIdx yb rows y * cols + leastIdx xb cols x)))) := by
  obtain ⟨hrpos, hcpos, hyb, hxb, hcell⟩ := hpg
  intro ys
  induction ys with
  | nil =>
      intro gy out tr _ _ _
      simp [pasteRows, applyTrace]
  | cons y ys ih =>
      intro gy out tr hybounds hysort hgy
      have hy0 : yb 0 ≤ y := (hybounds y (List.mem_cons_self y ys)).1
      have hyrows : y < yb rows := (hybounds y (List.mem_cons_self y ys)).2
      obtain ⟨ht1, ht2, ht3, ht4⟩ := leastIdx_spec yb rows y hyb hy0 hyrows hrpos
      set t := leastIdx yb rows y with htdef
      have hadv : advanceWhile
          (fun g => decide ((cells (g * cols)).cell_end.y ≤ y)) rows gy = t := by
        apply advanceWhile_spec _ t rows gy (hgy y (List.mem_cons_self y ys)) (by omega)
        · intro k _ hk2
          have hkrows : k < rows := by omega
          have hc := (hcell k hkrows 0 hcpos).2
          rw [Nat.add_zero] at hc
          simp only [decide_eq_true_eq, hc]
          exact ht4 k hk2
        · have hc := (hcell t ht1 0 hcpos).2
          rw [Nat.add_zero] at hc
          simp only [decide_eq_false_iff_not, not_le, hc]
          exact ht3
      have step : pasteRows conv cells rows cols P xs min_gx (y :: ys) gy out tr =
          pasteRows conv cells rows cols P xs min_gx ys t
            (pasteRow conv cells cols P t y xs min_gx out tr).1
            (pasteRow conv cells cols P t y xs min_gx out tr).2 := by
        simp only [pasteRows, hadv]
      rw [step]
      rw [pasteRow_spec conv cells rows cols yb xb P
            ⟨hrpos, hcpos, hyb, hxb, hcell⟩ t ht1 y xs min_gx out tr
            hxbounds hxsort hmin]
      rw [ih t _ _ (fun u hu => hybounds u (List.mem_cons_of_mem _ hu))
            hysort.of_cons
            (fun u hu => by
              have hyu : y ≤ u := (List.pairwise_cons.mp hysort).1 u hu
              exact leastIdx_monotone yb rows y u hyb hrpos hy0 hyrows
                (hybounds u (List.mem_cons_of_mem _ hu)).1
                (hybounds u (List.mem_cons_of_mem _ hu)).2 hyu)]
      simp [List.flatMap_cons, applyTrace_append, List.append_assoc]

/-! ### The naive per-pixel search on a product grid -/

theorem naiveScan_spec (cells : Nat → GridCellGPU) (y x : Int) (m : Nat) :
    ∀ fuel i, i ≤ m → m < i + fuel →
      (∀ k, i ≤ k → k < m → cellContains (cells k) y x = false) →
      cellContains (cells m) y x = true →
      naiveScan cells y x i fuel = some m := by
  intro fuel
  induction fuel with
  | zero => intro i h1 h2 _ _; omega
  | succ n ih =>
      intro i h1 h2 hfalse htrue
      by_cases him : i = m
      · subst him
        simp [naiveScan, htrue]
      · have hlt : i < m := by omega
        have hfi : cellContains (cells i) y x = false := hfalse i le_rfl hlt
        simp only [naiveScan, hfi, Bool.false_eq_true, if_false]
        exact ih (i + 1) (by omega) (by omega) (fun k hk1 hk2 => hfalse k (by omega) hk2) htrue

theorem flat_index_cases (cols r c k : Nat) (hc : c < cols) (hk : k < r * cols + c) :
    ∃ q s, s < cols ∧ k = q * cols + s ∧ (q < r ∨ (q = r ∧ s < c)) := by
  have hcols : 0 < cols := by omega
  have hqs : cols * (k / cols) + k % cols = k := Nat.div_add_mod k cols
  have hcomm : cols * (k / cols) = (k / cols) * cols := Nat.mul_comm _ _
  refine ⟨k / cols, k % cols, Nat.mod_lt _ hcols, by omega, ?_⟩
  by_cases hq : r < k / cols
  · exfalso
    have h1 : cols * (r + 1) ≤ cols * (k / cols) := Nat.mul_le_mul_left cols hq
    have h2 : cols * (r + 1) = r * cols + cols := by ring
    omega
  · by_cases hqr : k / cols = r
    · right
      refine ⟨hqr, ?_⟩
      rw [hqr] at hqs hcomm
      omega
    · left
      omega

theorem naiveFindCell_product (cells : Nat → GridCellGPU)
    (rows cols : Nat) (yb xb : Nat → Int)
    (hpg : ProductGrid cells rows cols yb xb) (y x : Int)
    (hy0 : yb 0 ≤ y) (hyn : y < yb rows) (hx0 : xb 0 ≤ x) (hxn : x < xb cols) :
    naiveFindCell cells (rows * cols) y x =
      some (leastIdx yb rows y * cols + leastIdx xb cols x) := by
  obtain ⟨hrpos, hcpos, hyb, hxb, hcell⟩ := hpg
  obtain ⟨hr1, hr2, hr3, hr4⟩ := leastIdx_spec yb rows y hyb hy0 hyn hrpos
  obtain ⟨hc1, hc2, hc3, hc4⟩ := leastIdx_spec xb cols x hxb hx0 hxn hcpos
  set r := leastIdx yb rows y with hrdef
  set c := leastIdx xb cols x with hcdef
  have hm : r * cols + c < rows * cols := by
    have h1 : (r + 1) * cols = r * cols + cols := by ring
    have h2 : (r + 1) * cols ≤ rows * cols := Nat.mul_le_mul_right cols (by omega)
    omega
  apply naiveScan_spec cells y x (r * cols + c) (rows * cols) 0 (by omega) (by omega)
  · intro k _ hk
    obtain ⟨q, s, hscols, hksplit, hcase⟩ := flat_index_cases cols r c k hc1 hk
    subst hksplit
    have hqrows : q < rows := by rcases hcase with h | ⟨h, _⟩ <;> omega
    have hcs := hcell q hqrows s hscols
    rcases hcase with hqr | ⟨hqr, hsc⟩
    · have hyge : yb (q + 1) ≤ y := by
        have := boundary_mono_le yb rows hyb (q + 1) r (by omega) (by omega)
        omega
      simp only [cellContains, hcs.1, hcs.2]
      have hd : decide (y < yb (q + 1)) = false := by
        simp [not_lt.mpr hyge]
      simp [hd]
    · subst hqr
      have hxge : xb (s + 1) ≤ x := by
        have := boundary_mono_le xb cols hxb (s + 1) c (by omega) (by omega)
        omega
      simp only [cellContains, hcs.1, hcs.2]
      have hd : decide (x < xb (s + 1)) = false := by
        simp [not_lt.mpr hxge]
      simp [hd]
  · have hcs := hcell r hr1 c hc1
    simp only [cellContains, hcs.1, hcs.2]
    simp only [Bool.and_eq_true, decide_eq_true_eq]
    exact ⟨⟨⟨hr2, hr3⟩, hc2⟩, hc3⟩

/-! ### Distinctness of the write offsets along a scan -/

theorem trace_offsets_ne (P : Int) (ys xs : List Int) (f : Int → Int → Nat)
    (hys : ys.Pairwise (· < ·)) (hxs : xs.Pairwise (· < ·))
    (hxlo : ∀ x ∈ xs, 0 ≤ x) (hxhi : ∀ x ∈ xs, x < P) :
    (ys.flatMap (fun y => xs.map (fun x => ((y : Int), x, f y x)))).Pairwise
      (fun a b => a.1 * P + a.2.1 ≠ b.1 * P + b.2.1) := by
  induction ys with
  | nil => simp
  | cons y ys ih =>
      rw [List.flatMap_cons, List.pairwise_append]
      refine ⟨?_, ih hys.of_cons, ?_⟩
      · rw [List.pairwise_map]
        refine hxs.imp ?_
        intro a b hab
        simp only []
        omega
      · intro a ha b hb
        obtain ⟨u, hu, rfl⟩ := List.mem_map.mp ha
        obtain ⟨w, hw, hb2⟩ := List.mem_flatMap.mp hb
        obtain ⟨v, hv, rfl⟩ := List.mem_map.mp hb2
        have hyy : y < w := (List.pairwise_cons.mp hys).1 w hw
        have h1 : 0 ≤ v := hxlo v hv
        have h0 : 0 ≤ u := hxlo u hu
        have h2 : u < P := hxhi u hu
        have hmul : (y + 1) * P ≤ w * P :=
          mul_le_mul_of_nonneg_right (by omega) (by omega)
        have hexp : (y + 1) * P = y * P + P := by ring
        simp only []
        omega

/-! ### Full characterization of one kernel thread -/

theorem PasteKernel_unfold (samples : Nat → SampleDescriptorGPU)
    (gridCells : Nat → GridCellGPU) (blocks : Nat → BlockDesc) (conv : Int → Int)
    (bi : Nat) (tIdx bDim : IVec2) (out : Int → Int) :
    PasteKernel samples gridCells blocks conv bi tIdx bDim out =
      pasteRows conv
        (fun i => gridCells ((samples (blocks bi).sample_idx).grid_cell_start_idx + i))
        (samples (blocks bi).sample_idx).cell_counts_y
        (samples (blocks bi).sample_idx).cell_counts_x
        (samples (blocks bi).sample_idx).out_pitch_x
        (strideSeq (tIdx.x + (blocks bi).start.x) bDim.x (blocks bi).end_.x)
        (advanceWhile
          (fun g => decide
            ((gridCells ((samples (blocks bi).sample_idx).grid_cell_start_idx + g)).cell_end.x ≤
              tIdx.x + (blocks bi).start.x))
          (samples (blocks bi).sample_idx).cell_counts_x 0)
        (strideSeq (tIdx.y + (blocks bi).start.y) bDim.y (blocks bi).end_.y)
        0 out [] := rfl

theorem pasteKernel_spec (samples : Nat → SampleDescriptorGPU)
    (gridCells : Nat → GridCellGPU) (blocks : Nat → BlockDesc) (conv : Int → Int)
    (bi : Nat) (tIdx bDim : IVec2) (out0 : Int → Int)
    (rows cols : Nat) (yb xb : Nat → Int)
    (hrows : (samples (blocks bi).sample_idx).cell_counts_y = rows)
    (hcols : (samples (blocks bi).sample_idx).cell_counts_x = cols)
    (hpg : ProductGrid
      (fun i => gridCells ((samples (blocks bi).sample_idx).grid_cell_start_idx + i))
      rows cols yb xb)
    (hsy : 1 ≤ bDim.y) (hsx : 1 ≤ bDim.x)
    (hy0 : yb 0 ≤ tIdx.y + (blocks bi).start.y)
    (hyend : (blocks bi).end_.y ≤ yb rows)
    (hx0 : xb 0 ≤ tIdx.x + (blocks bi).start.x)
    (hxend : (blocks bi).end_.x ≤ xb cols) :
    PasteKernel samples gridCells blocks conv bi tIdx bDim out0 =
      (applyTrace conv
        (fun i => gridCells ((samples (blocks bi).sample_idx).grid_cell_start_idx + i))
        (samples (blocks bi).sample_idx).out_pitch_x
        ((strideSeq (tIdx.y + (blocks bi).start.y) bDim.y (blocks bi).end_.y).flatMap
          (fun y => (strideSeq (tIdx.x + (blocks bi).start.x) bDim.x (blocks bi).end_.x).map
            (fun x => (y, x, leastIdx yb rows y * cols + leastIdx xb cols x)))) out0,
       (strideSeq (tIdx.y + (blocks bi).start.y) bDim.y (blocks bi).end_.y).flatMap
          (fun y => (strideSeq (tIdx.x + (blocks bi).start.x) bDim.x (blocks bi).end_.x).map
            (fun x => (y, x, leastIdx yb rows y * cols + leastIdx xb cols x)))) := by
  obtain ⟨hrpos, hcpos, hyb, hxb, hcell⟩ := hpg
  have hxbounds : ∀ x ∈ strideSeq (tIdx.x + (blocks bi).start.x) bDim.x (blocks bi).end_.x,
      xb 0 ≤ x ∧ x < xb cols := by
    intro x hx
    have h1 := strideSeq_mem_ge (tIdx.x + (blocks bi).start.x) bDim.x (blocks bi).end_.x hsx x hx
    have h2 := strideSeq_mem_lt (tIdx.x + (blocks bi).start.x) bDim.x (blocks bi).end_.x x hx
    exact ⟨le_trans hx0 h1, lt_of_lt_of_le h2 hxend⟩
  have hybounds : ∀ y ∈ strideSeq (tIdx.y + (blocks bi).start.y) bDim.y (blocks bi).end_.y,
      yb 0 ≤ y ∧ y < yb rows := by
    intro y hy
    have h1 := strideSeq_mem_ge (tIdx.y + (blocks bi).start.y) bDim.y (blocks bi).end_.y hsy y hy
    have h2 := strideSeq_mem_lt (tIdx.y + (blocks bi).start.y) bDim.y (blocks bi).end_.y y hy
    exact ⟨le_trans hy0 h1, lt_of_lt_of_le h2 hyend⟩
  have hminx : ∀ x ∈ strideSeq (tIdx.x + (blocks bi).start.x) bDim.x (blocks bi).end_.x,
      advanceWhile
        (fun g => decide
          ((gridCells ((samples (blocks bi).sample_idx).grid_cell_start_idx + g)).cell_end.x ≤
            tIdx.x + (blocks bi).start.x)) cols 0 ≤ leastIdx xb cols x := by
    intro x hx
    have h1 := strideSeq_mem_ge (tIdx.x + (blocks bi).start.x) bDim.x (blocks bi).end_.x hsx x hx
    have hx0cols : tIdx.x + (blocks bi).start.x < xb cols :=
      lt_of_le_of_lt h1 (hxbounds x hx).2
    obtain ⟨hm1, hm2, hm3, hm4⟩ :=
      leastIdx_spec xb cols (tIdx.x + (blocks bi).start.x) hxb hx0 hx0cols hcpos
    have hmg : advanceWhile
        (fun g => decide
          ((gridCells ((samples (blocks bi).sample_idx).grid_cell_start_idx + g)).cell_end.x ≤
            tIdx.x + (blocks bi).start.x)) cols 0 =
        leastIdx xb cols (tIdx.x + (blocks bi).start.x) := by
      apply advanceWhile_spec _ _ cols 0 (Nat.zero_le _) (by omega)
      · intro k _ hk
        have hkcols : k < cols := by omega
        have hc := (hcell 0 hrpos k hkcols).2
        rw [Nat.zero_mul, Nat.zero_add] at hc
        simp only [decide_eq_true_eq]
        rw [hc]
        exact hm4 k hk
      · have hc := (hcell 0 hrpos (leastIdx xb cols (tIdx.x + (blocks bi).start.x)) hm1).2
        rw [Nat.zero_mul, Nat.zero_add] at hc
        simp only [decide_eq_false_iff_not, not_le]
        rw [hc]
        exact hm3
    rw [hmg]
    exact leastIdx_monotone xb cols (tIdx.x + (blocks bi).start.x) x hxb hcpos hx0 hx0cols
      (hxbounds x hx).1 (hxbounds x hx).2 h1
  have hmain := pasteRows_spec conv
      (fun i => gridCells ((samples (blocks bi).sample_idx).grid_cell_start_idx + i))
      rows cols yb xb (samples (blocks bi).sample_idx).out_pitch_x
      ⟨hrpos, hcpos, hyb, hxb, hcell⟩
      (strideSeq (tIdx.x + (blocks bi).start.x) bDim.x (blocks bi).end_.x)
      hxbounds
      ((strideSeq_pairwise (tIdx.x + (blocks bi).start.x) bDim.x (blocks bi).end_.x hsx).imp
        le_of_lt)
      (advanceWhile
        (fun g => decide
          ((gridCells ((samples (blocks bi).sample_idx).grid_cell_start_idx + g)).cell_end.x ≤
            tIdx.x + (blocks bi).start.x)) cols 0)
      hminx
      (strideSeq (tIdx.y + (blocks bi).start.y) bDim.y (blocks bi).end_.y)
      0 out0 [] hybounds
      ((strideSeq_pairwise (tIdx.y + (blocks bi).start.y) bDim.y (blocks bi).end_.y hsy).imp
        le_of_lt)
      (fun _ _ => Nat.zero_le _)
  rw [PasteKernel_unfold, hrows, hcols, hmain]
  simp

theorem flatMap_congr_mem {α β : Type} (l : List α) (f g : α → List β)
    (h : ∀ a ∈ l, f a = g a) : l.flatMap f = l.flatMap g := by
  induction l with
  | nil => rfl
  | cons a l ih =>
      simp only [List.flatMap_cons]
      rw [h a (List.mem_cons_self a l), ih (fun b hb => h b (List.mem_cons_of_mem _ hb))]

/-- C1: for every work block and every output pixel position `(y, x)` scanned
by the kernel in row-major order, assuming the sample's grid cells satisfy
the row-major monotonic-boundary invariant and cover every pixel of the
canvas (`ProductGrid` together with the block lying inside the covered
canvas), the forward-only cursor of `PasteKernel` resolves exactly the same
grid cell as a naive per-pixel search (`naiveFindCell`) for the unique cell
whose `[cell_start, cell_end)` rectangle contains `(y, x)`: the kernel's
resolution trace equals the naive search result at every scanned pixel. -/
theorem pasteKernel_cursor_matches_naive_search
    (samples : Nat → SampleDescriptorGPU) (gridCells : Nat → GridCellGPU)
    (blocks : Nat → BlockDesc) (conv : Int → Int)
    (bi : Nat) (tIdx bDim : IVec2) (out0 : Int → Int)
    (rows cols : Nat) (yb xb : Nat → Int)
    (hrows : (samples (blocks bi).sample_idx).cell_counts_y = rows)
    (hcols : (samples (blocks bi).sample_idx).cell_counts_x = cols)
    (hpg : ProductGrid
      (fun i => gridCells ((samples (blocks bi).sample_idx).grid_cell_start_idx + i))
      rows cols yb xb)
    (hsy : 1 ≤ bDim.y) (hsx : 1 ≤ bDim.x)
    (hy0 : yb 0 ≤ tIdx.y + (blocks bi).start.y)
    (hyend : (blocks bi).end_.y ≤ yb rows)
    (hx0 : xb 0 ≤ tIdx.x + (blocks bi).start.x)
    (hxend : (blocks bi).end_.x ≤ xb cols) :
    (PasteKernel samples gridCells blocks conv bi tIdx bDim out0).2 =
      (scannedPixels (blocks bi) tIdx bDim).map
        (fun p => (p.1, p.2,
          naiveCellIdx
            (fun i => gridCells ((samples (blocks bi).sample_idx).grid_cell_start_idx + i))
            (rows * cols) p.1 p.2)) := by
  rw [pasteKernel_spec samples gridCells blocks conv bi tIdx bDim out0 rows cols yb xb
    hrows hcols hpg hsy hsx hy0 hyend hx0 hxend]
  unfold scannedPixels
  rw [List.map_flatMap]
  apply flatMap_congr_mem
  intro y hy
  rw [List.map_map]
  apply List.map_congr_left
  intro x hx
  have hyb1 := strideSeq_mem_ge (tIdx.y + (blocks bi).start.y) bDim.y (blocks bi).end_.y hsy y hy
  have hyb2 := strideSeq_mem_lt (tIdx.y + (blocks bi).start.y) bDim.y (blocks bi).end_.y y hy
  have hxb1 := strideSeq_mem_ge (tIdx.x + (blocks bi).start.x) bDim.x (blocks bi).end_.x hsx x hx
  have hxb2 := strideSeq_mem_lt (tIdx.x + (blocks bi).start.x) bDim.x (blocks bi).end_.x x hx
  have hnf := naiveFindCell_product
    (fun i => gridCells ((samples (blocks bi).sample_idx).grid_cell_start_idx + i))
    rows cols yb xb hpg y x
    (le_trans hy0 hyb1) (lt_of_lt_of_le hyb2 hyend)
    (le_trans hx0 hxb1) (lt_of_lt_of_le hxb2 hxend)
  simp [Function.comp, naiveCellIdx, hnf]

/-- C2: for every output pixel `(y, x)` the kernel scans, resolved (per the
grid invariant) to the containing grid cell: if the cell has a source, the
kernel stores the saturating conversion of the source element at offset
`(y - cell_start.y + in_anchor.y) * in_pitch + (x - cell_start.x +
in_anchor.x)`; if the cell has no source, it stores the background value 0
(both cases are `cellWrite`). -/
theorem pasteKernel_pixel_value
    (samples : Nat → SampleDescriptorGPU) (gridCells : Nat → GridCellGPU)
    (blocks : Nat → BlockDesc) (conv : Int → Int)
    (bi : Nat) (tIdx bDim : IVec2) (out0 : Int → Int)
    (rows cols : Nat) (yb xb : Nat → Int)
    (hrows : (samples (blocks bi).sample_idx).cell_counts_y = rows)
    (hcols : (samples (blocks bi).sample_idx).cell_counts_x = cols)
    (hpg : ProductGrid
      (fun i => gridCells ((samples (blocks bi).sample_idx).grid_cell_start_idx + i))
      rows cols yb xb)
    (hsy : 1 ≤ bDim.y) (hsx : 1 ≤ bDim.x)
    (hy0 : yb 0 ≤ tIdx.y + (blocks bi).start.y)
    (hyend : (blocks bi).end_.y ≤ yb rows)
    (hx0 : xb 0 ≤ tIdx.x + (blocks bi).start.x)
    (hxend : (blocks bi).end_.x ≤ xb cols)
    (hxb0 : 0 ≤ xb 0)
    (hpitch : xb cols ≤ (samples (blocks bi).sample_idx).out_pitch_x) :
    ∀ y x, (y, x) ∈ scannedPixels (blocks bi) tIdx bDim →
      (PasteKernel samples gridCells blocks conv bi tIdx bDim out0).1
          (y * (samples (blocks bi).sample_idx).out_pitch_x + x) =
        cellWrite conv
          (gridCells ((samples (blocks bi).sample_idx).grid_cell_start_idx +
            naiveCellIdx
              (fun i => gridCells ((samples (blocks bi).sample_idx).grid_cell_start_idx + i))
              (rows * cols) y x)) y x := by
  intro y x hmem
  unfold scannedPixels at hmem
  obtain ⟨u, hu, hmem2⟩ := List.mem_flatMap.mp hmem
  obtain ⟨w, hw, heq⟩ := List.mem_map.mp hmem2
  rw [Prod.mk.injEq] at heq
  obtain ⟨rfl, rfl⟩ := heq
  have hyb1 := strideSeq_mem_ge (tIdx.y + (blocks bi).start.y) bDim.y (blocks bi).end_.y hsy u hu
  have hyb2 := strideSeq_mem_lt (tIdx.y + (blocks bi).start.y) bDim.y (blocks bi).end_.y u hu
  have hxb1 := strideSeq_mem_ge (tIdx.x + (blocks bi).start.x) bDim.x (blocks bi).end_.x hsx w hw
  have hxb2 := strideSeq_mem_lt (tIdx.x + (blocks bi).start.x) bDim.x (blocks bi).end_.x w hw
  have hnf := naiveFindCell_product
    (fun i => gridCells ((samples (blocks bi).sample_idx).grid_cell_start_idx + i))
    rows cols yb xb hpg u w
    (le_trans hy0 hyb1) (lt_of_lt_of_le hyb2 hyend)
    (le_trans hx0 hxb1) (lt_of_lt_of_le hxb2 hxend)
  rw [pasteKernel_spec samples gridCells blocks conv bi tIdx bDim out0 rows cols yb xb
    hrows hcols hpg hsy hsx hy0 hyend hx0 hxend]
  have hmemTrace :
      ((u : Int), (w : Int), leastIdx yb rows u * cols + leastIdx xb cols w) ∈
        (strideSeq (tIdx.y + (blocks bi).start.y) bDim.y (blocks bi).end_.y).flatMap
          (fun y => (strideSeq (tIdx.x + (blocks bi).start.x) bDim.x (blocks bi).end_.x).map
            (fun x => (y, x, leastIdx yb rows y * cols + leastIdx xb cols x))) :=
    List.mem_flatMap.mpr ⟨u, hu, List.mem_map.mpr ⟨w, hw, rfl⟩⟩
  have hdist := trace_offsets_ne (samples (blocks bi).sample_idx).out_pitch_x
    (strideSeq (tIdx.y + (blocks bi).start.y) bDim.y (blocks bi).end_.y)
    (strideSeq (tIdx.x + (blocks bi).start.x) bDim.x (blocks bi).end_.x)
    (fun a b => leastIdx yb rows a * cols + leastIdx xb cols b)
    (strideSeq_pairwise (tIdx.y + (blocks bi).start.y) bDim.y (blocks bi).end_.y hsy)
    (strideSeq_pairwise (tIdx.x + (blocks bi).start.x) bDim.x (blocks bi).end_.x hsx)
    (fun v hv => le_trans hxb0
      (le_trans hx0 (strideSeq_mem_ge (tIdx.x + (blocks bi).start.x) bDim.x (blocks bi).end_.x hsx v hv)))
    (fun v hv => lt_of_lt_of_le
      (lt_of_lt_of_le (strideSeq_mem_lt (tIdx.x + (blocks bi).start.x) bDim.x (blocks bi).end_.x v hv) hxend)
      hpitch)
  have hval := applyTrace_getValue conv
    (fun i => gridCells ((samples (blocks bi).sample_idx).grid_cell_start_idx + i))
    (samples (blocks bi).sample_idx).out_pitch_x
    ((strideSeq (tIdx.y + (blocks bi).start.y) bDim.y (blocks bi).end_.y).flatMap
      (fun y => (strideSeq (tIdx.x + (blocks bi).start.x) bDim.x (blocks bi).end_.x).map
        (fun x => (y, x, leastIdx yb rows y * cols + leastIdx xb cols x))))
    out0
    ((u : Int), (w : Int), leastIdx yb rows u * cols + leastIdx xb cols w)
    hmemTrace hdist
  simp only [] at hval
  simp only [naiveCellIdx, hnf, Option.getD_some]
  exact hval

theorem pasteKernel_cursor_matches_naive_search_witness :
    (PasteKernel wSamplesA wCellsA wBlocksA (fun v => v) 0 ⟨0, 0⟩ ⟨1, 1⟩ (fun _ => 5)).2 =
      (scannedPixels (wBlocksA 0) ⟨0, 0⟩ ⟨1, 1⟩).map
        (fun p => (p.1, p.2,
          naiveCellIdx
            (fun i => wCellsA ((wSamplesA (wBlocksA 0).sample_idx).grid_cell_start_idx + i))
            (2 * 2) p.1 p.2)) :=
  pasteKernel_cursor_matches_naive_search wSamplesA wCellsA wBlocksA (fun v => v)
    0 ⟨0, 0⟩ ⟨1, 1⟩ (fun _ => 5) 2 2 wyb wxb rfl rfl
    (by unfold ProductGrid; decide) (by decide) (by decide) (by decide) (by decide)
    (by decide) (by decide)

theorem pasteKernel_pixel_value_witness :
    (PasteKernel wSamplesA wCellsA wBlocksA (fun v => v) 0 ⟨0, 0⟩ ⟨1, 1⟩ (fun _ => 5)).1
        (3 * (wSamplesA (wBlocksA 0).sample_idx).out_pitch_x + 4) =
      cellWrite (fun v => v)
        (wCellsA ((wSamplesA (wBlocksA 0).sample_idx).grid_cell_start_idx +
          naiveCellIdx
            (fun i => wCellsA ((wSamplesA (wBlocksA 0).sample_idx).grid_cell_start_idx + i))
            (2 * 2) 3 4)) 3 4 :=
  pasteKernel_pixel_value wSamplesA wCellsA wBlocksA (fun v => v)
    0 ⟨0, 0⟩ ⟨1, 1⟩ (fun _ => 5) 2 2 wyb wxb rfl rfl
    (by unfold ProductGrid; decide) (by decide) (by decide) (by decide) (by decide)
    (by decide) (by decide) (by decide) (by decide) 3 4 (by decide)

/-! ### Packer and Setup theorems -/

theorem getD_map_range {α : Type} (n : Nat) (f : Nat → α) (j : Nat) (d : α) (hj : j < n) :
    ((List.range n).map f).getD j d = f j := by
  rw [List.getD_eq_getElem?_getD, List.getElem?_map, List.getElem?_range hj]
  rfl

/-- C7: for a grid cell whose source is absent (`input_idx = -1`), the
packer stores a null source pointer (`none`) and the sentinel pitch `-1`
(scaled, like every fast-axis quantity, by the channel factor), and the
compositor's per-pixel store for such a cell is the background value 0
independently of the pitch and anchor fields — the source-dereferencing
branch is unreachable for background cells. -/
theorem cellWrite_src_none (conv : Int → Int) (cell : GridCellGPU) (y x : Int)
    (h : cell.src = none) : cellWrite conv cell y x = 0 := by
  simp [cellWrite, h]

theorem packed_background_cell_never_reads_source
    (outImgs : Nat → OutImageGPU) (inImgs : Nat → InImageGPU)
    (samples : List MultiPasteSampleInput) (grid : List GridCellInput) (channels : Int)
    (j : Nat) (hj : j < grid.length)
    (hbg : (grid.getD j dGridIn).input_idx = -1) :
    ((CreateSampleDescriptors outImgs inImgs samples grid channels).2.getD j dCellDesc).src
        = none ∧
    ((CreateSampleDescriptors outImgs inImgs samples grid channels).2.getD j
        dCellDesc).in_pitch_x = -1 * channels ∧
    ∀ conv y x pX a,
      cellWrite conv
        { (CreateSampleDescriptors outImgs inImgs samples grid channels).2.getD j dCellDesc
          with in_pitch_x := pX, in_anchor := a } y x = 0 := by
  have hbg2 : (grid.getD j (⟨-1, ⟨0, 0⟩, ⟨0, 0⟩, ⟨0, 0⟩⟩ : GridCellInput)).input_idx
      = -1 := hbg
  have hsrc : ((CreateSampleDescriptors outImgs inImgs samples grid channels).2.getD j
      dCellDesc).src = none := by
    unfold CreateSampleDescriptors
    rw [getD_map_range grid.length _ j dCellDesc hj]
    show (if (grid.getD j ⟨-1, ⟨0, 0⟩, ⟨0, 0⟩, ⟨0, 0⟩⟩).input_idx = -1 then none
        else some (inImgs (grid.getD j
          ⟨-1, ⟨0, 0⟩, ⟨0, 0⟩, ⟨0, 0⟩⟩).input_idx.toNat).data) = none
    rw [if_pos hbg2]
  have hpitch : ((CreateSampleDescriptors outImgs inImgs samples grid channels).2.getD j
      dCellDesc).in_pitch_x = -1 * channels := by
    unfold CreateSampleDescriptors
    rw [getD_map_range grid.length _ j dCellDesc hj]
    show (if (grid.getD j ⟨-1, ⟨0, 0⟩, ⟨0, 0⟩, ⟨0, 0⟩⟩).input_idx = -1 then (-1 : Int)
        else (inImgs (grid.getD j
          ⟨-1, ⟨0, 0⟩, ⟨0, 0⟩, ⟨0, 0⟩⟩).input_idx.toNat).shape.2.1) * channels
        = -1 * channels
    rw [if_pos hbg2]
  exact ⟨hsrc, hpitch, fun conv y x pX a => cellWrite_src_none conv _ y x hsrc⟩

theorem packed_background_cell_never_reads_source_witness :
    ((CreateSampleDescriptors wOutImgs1 wInImgs1 wSampleInputs1 wGridInputs1 3).2.getD 1
        dCellDesc).src = none ∧
    ((CreateSampleDescriptors wOutImgs1 wInImgs1 wSampleInputs1 wGridInputs1 3).2.getD 1
        dCellDesc).in_pitch_x = -1 * 3 ∧
    cellWrite convertSatU8
      { (CreateSampleDescriptors wOutImgs1 wInImgs1 wSampleInputs1 wGridInputs1 3).2.getD 1
          dCellDesc with in_pitch_x := 123, in_anchor := ⟨5, 6⟩ } 7 9 = 0 := by
  have h := packed_background_cell_never_reads_source wOutImgs1 wInImgs1 wSampleInputs1
    wGridInputs1 3 1 (by decide) (by decide)
  exact ⟨h.1, h.2.1, h.2.2 convertSatU8 7 9 123 ⟨5, 6⟩⟩

/-- C4 counterexample: a batch whose images all have channel count 1; the
packer as invoked by `PasteGPU::Run` still scales the output row pitch by
the hard-coded literal 3, so the pitch is NOT (row width) × C for the
batch's channel count C = 1. -/
theorem run_packer_ignores_batch_channel_count :
    (∀ k < 1, lastExtent (wInImgs1 k).shape = 1) ∧
    (∀ k < 1, lastExtent (wOutImgs1 k).shape = 1) ∧
    ((PasteGPURunPack wOutImgs1 wInImgs1 wSampleInputs1 wGridInputs1).1.getD 0
        dSampleDesc).out_pitch_x ≠ (wOutImgs1 0).shape.2.1 * 1 := by
  refine ⟨by decide, by decide, ?_⟩
  decide

/-- C4 amended: the descriptor packer as invoked by `PasteGPU::Run` sets
each sample's output row pitch to (row width in elements) × 3 and scales
each grid cell's fast-axis `cell_start`, `cell_end`, source anchor and
source pitch by 3 — the channel count hard-coded at the `Run` call site —
which coincides with the batch's channel count only for 3-channel images. -/
theorem run_packer_scales_by_three
    (outImgs : Nat → OutImageGPU) (inImgs : Nat → InImageGPU)
    (samples : List MultiPasteSampleInput) (grid : List GridCellInput) :
    (∀ i < samples.length,
      ((PasteGPURunPack outImgs inImgs samples grid).1.getD i dSampleDesc).out_pitch_x =
        (outImgs i).shape.2.1 * 3) ∧
    (∀ j < grid.length,
      ((PasteGPURunPack outImgs inImgs samples grid).2.getD j dCellDesc).cell_start =
          ⟨(grid.getD j dGridIn).cell_start.y, (grid.getD j dGridIn).cell_start.x * 3⟩ ∧
      ((PasteGPURunPack outImgs inImgs samples grid).2.getD j dCellDesc).cell_end =
          ⟨(grid.getD j dGridIn).cell_end.y, (grid.getD j dGridIn).cell_end.x * 3⟩ ∧
      ((PasteGPURunPack outImgs inImgs samples grid).2.getD j dCellDesc).in_anchor =
          ⟨(grid.getD j dGridIn).in_anchor.y, (grid.getD j dGridIn).in_anchor.x * 3⟩ ∧
      ((PasteGPURunPack outImgs inImgs samples grid).2.getD j dCellDesc).in_pitch_x =
          (if (grid.getD j dGridIn).input_idx = -1 then -1
           else (inImgs (grid.getD j dGridIn).input_idx.toNat).shape.2.1) * 3) := by
  constructor
  · intro i hi
    unfold PasteGPURunPack CreateSampleDescriptors
    rw [getD_map_range samples.length _ i dSampleDesc hi]
  · intro j hj
    unfold PasteGPURunPack CreateSampleDescriptors
    rw [getD_map_range grid.length _ j dCellDesc hj]
    exact ⟨rfl, rfl, rfl, rfl⟩

theorem run_packer_scales_by_three_witness :
    ((PasteGPURunPack wOutImgs1 wInImgs1 wSampleInputs1 wGridInputs1).1.getD 0
        dSampleDesc).out_pitch_x = (wOutImgs1 0).shape.2.1 * 3 :=
  (run_packer_scales_by_three wOutImgs1 wInImgs1 wSampleInputs1 wGridInputs1).1 0 (by decide)

/-- C8: `PasteGPU::Setup` fails exactly when some sample of the input batch
has a channel count (last shape extent) different from the first sample's;
the check precedes the sizing computation (and all packing, which happens
only in `Run`).  With uniform channel counts Setup succeeds, returning the
resource requirements. -/
theorem pasteGPUSetup_error_iff_channel_mismatch
    (sS sC sB : Nat) (inShapes : List (Int × Int × Int)) (nS nC nB : Nat)
    (hne : inShapes ≠ []) :
    ((∃ e, PasteGPUSetup sS sC sB inShapes nS nC nB = .error e) ↔
      ∃ i, i < inShapes.length ∧
        lastExtent (inShapes.getD i (0, 0, 0)) ≠ lastExtent (inShapes.getD 0 (0, 0, 0))) ∧
    (channelsUniform inShapes = true →
      ∃ req, PasteGPUSetup sS sC sB inShapes nS nC nB = .ok req) := by
  obtain ⟨s0, rest, rfl⟩ := List.exists_cons_of_ne_nil hne
  constructor
  · constructor
    · rintro ⟨e, he⟩
      unfold PasteGPUSetup at he
      by_cases hu : channelsUniform (s0 :: rest) = true
      · rw [if_pos hu] at he
        cases he
      · have hfalse : (s0 :: rest).all (fun s => lastExtent s == lastExtent s0) = false := by
          unfold channelsUniform at hu
          exact Bool.not_eq_true _ ▸ Bool.eq_false_iff.mpr hu
        obtain ⟨s, hs, hps⟩ := List.all_eq_false.mp hfalse
        obtain ⟨i, hi, hgi⟩ := List.mem_iff_getElem.mp hs
        refine ⟨i, hi, ?_⟩
        rw [List.getD_eq_getElem _ _ hi, hgi]
        have h0 : (s0 :: rest).getD 0 (0, 0, 0) = s0 := rfl
        rw [h0]
        simpa using hps
    · rintro ⟨i, hi, hnei⟩
      have hfalse : channelsUniform (s0 :: rest) = false := by
        unfold channelsUniform
        apply List.all_eq_false.mpr
        refine ⟨(s0 :: rest).getD i (0, 0, 0), ?_, ?_⟩
        · rw [List.getD_eq_getElem _ _ hi]
          exact List.getElem_mem hi
        · simp only [beq_iff_eq]
          intro hcon
          exact hnei hcon
      unfold PasteGPUSetup
      rw [if_neg (by simp [hfalse])]
      exact ⟨_, rfl⟩
  · intro hu
    unfold PasteGPUSetup
    rw [if_pos hu]
    exact ⟨_, rfl⟩

theorem pasteGPUSetup_error_iff_channel_mismatch_witness :
    ∃ e, PasteGPUSetup 48 56 24 [(4, 4, 3), (4, 4, 1)] 2 5 7 = .error e :=
  ((pasteGPUSetup_error_iff_channel_mismatch 48 56 24 [(4, 4, 3), (4, 4, 1)] 2 5 7
      (by decide)).1).mpr ⟨1, by decide, by decide⟩

/-- C9: for a batch of N samples with M total grid cells and B work blocks,
`PasteGPU::Setup` (with uniform channel counts) returns scratch requirements
of exactly sizeof(SampleDescriptorGPU)·N bytes for sample descriptors,
sizeof(GridCellGPU)·M bytes for grid cells and sizeof(BlockDesc)·B bytes
for block descriptors, in the order they are registered — computed from
shapes and counts only, never reading or writing pixel data. -/
theorem pasteGPUSetup_scratch_sizes
    (sS sC sB : Nat) (inShapes : List (Int × Int × Int)) (nS nC nB : Nat)
    (hu : channelsUniform inShapes = true) :
    PasteGPUSetup sS sC sB inShapes nS nC nB =
      .ok ⟨[sS * nS, sC * nC, sB * nB]⟩ := by
  unfold PasteGPUSetup
  rw [if_pos hu]

theorem pasteGPUSetup_scratch_sizes_witness :
    PasteGPUSetup 48 56 24 [(4, 4, 3), (2, 6, 3)] 2 5 7 =
      .ok ⟨[48 * 2, 56 * 5, 24 * 7]⟩ :=
  pasteGPUSetup_scratch_sizes 48 56 24 [(4, 4, 3), (2, 6, 3)] 2 5 7 (by decide)

/-- C10: `MultiPasteCpu::SetupImpl` declares the output of sample `i` with
shape `(output_size[i][0], output_size[i][1], C_i)`, where `C_i` is the
channel extent of input sample `i`, and with element type equal to the
`dtype` argument when set and the input element type otherwise (for the
supported type combinations the type switches admit). -/
theorem multiPasteSetupImpl_output_desc
    (inputType outputTypeArg : DALIDataType)
    (outputSize : List (Int × Int)) (inShapes : List (Int × Int × Int))
    (hin : supportedType inputType = true)
    (hout : supportedType (resolveOutputType outputTypeArg inputType) = true) :
    multiPasteSetupImpl inputType outputTypeArg outputSize inShapes =
      .ok ((List.range inShapes.length).map (fun i =>
          ((outputSize.getD i (0, 0)).1, (outputSize.getD i (0, 0)).2,
           (inShapes.getD i (0, 0, 0)).2.2)),
        if outputTypeArg ≠ .noType then outputTypeArg else inputType) := by
  unfold multiPasteSetupImpl
  rw [if_pos hin, if_pos hout]
  rfl

theorem multiPasteSetupImpl_output_desc_witness :
    multiPasteSetupImpl .u8 .f32 [(7, 9)] [(3, 4, 2)] =
      .ok ((List.range ([((3 : Int), (4 : Int), (2 : Int))]).length).map (fun i =>
          (([((7 : Int), (9 : Int))].getD i (0, 0)).1,
           ([((7 : Int), (9 : Int))].getD i (0, 0)).2,
           ([((3 : Int), (4 : Int), (2 : Int))].getD i (0, 0, 0)).2.2)),
        if DALIDataType.f32 ≠ .noType then .f32 else .u8) :=
  multiPasteSetupImpl_output_desc .u8 .f32 [(7, 9)] [(3, 4, 2)] (by decide) (by decide)

/-- C3 (code bug): the canvas zeroing of `MultiPasteCpu::RunImpl` passes the
ELEMENT count of the canvas as the BYTE count of `memset`.  With output type
`int32_t` (4-byte elements), a 2×2×3 canvas and a buffer previously holding
nonzero bytes, only the first 12 of the 48 bytes are cleared after a run
with an empty paste list: element 3 still holds its old value, so the canvas
is not entirely background — while with the 1-byte type `uint8_t` every
element is cleared, pinpointing the missing `sizeof(OutputType)` factor. -/
theorem multipaste_memset_byte_count_bug :
    multiPasteEmptySample (fun _ => 1) 2 2 3 (3 * sizeOfType .i32) = 1 ∧
    ¬ (∀ i < 2 * 2 * 3,
        elementZero (multiPasteEmptySample (fun _ => 1) 2 2 3) (sizeOfType .i32) i) ∧
    (∀ i < 2 * 2 * 3,
        elementZero (multiPasteEmptySample (fun _ => 1) 2 2 3) (sizeOfType .u8) i) := by
  refine ⟨by decide, ?_, by decide⟩
  intro hall
  have := hall 3 (by decide) 0 (by decide)
  simp [multiPasteEmptySample, multiPasteZeroInit, memsetZero, sizeOfType] at this

/-! ### CPU sequential pasting: occlusion order and disjoint independence -/

theorem runSeq_not_covered (conv : Int → Int) (srcs : Nat → Int × Int → Int)
    (iters : List PasteIter) (canvas : Int × Int → Int) (p : Int × Int)
    (h : ∀ it ∈ iters, ¬ inRect it.outAnchor it.inShape p) :
    runSeq conv srcs iters canvas p = canvas p := by
  induction iters generalizing canvas with
  | nil => rfl
  | cons a l ih =>
      have hstep : runSeq conv srcs (a :: l) canvas =
          runSeq conv srcs l (pasteOne conv srcs a canvas) := rfl
      rw [hstep, ih _ (fun it hit => h it (List.mem_cons_of_mem _ hit))]
      simp only [pasteOne]
      rw [if_neg (h a (List.mem_cons_self a l))]

/-- C5 counterexample: three iterations pasting mutually overlapping 1×1
rectangles at output pixel (0,0).  Taking A = iteration 0 and B =
iteration 1 (A before B in the list, destination rectangles overlapping,
the pixel covered by both), the final stored value is iteration 2's source
value, not B's — so the claim as stated (for ANY two overlapping
iterations A before B the final value equals B's source value) fails. -/
theorem runSeq_pair_claim_fails_with_third_iteration :
    inRect wIterA.outAnchor wIterA.inShape (0, 0) ∧
    inRect wIterB.outAnchor wIterB.inShape (0, 0) ∧
    runSeq (fun v => v) wSrcs [wIterA, wIterB, wIterC] (fun _ => 0) (0, 0) ≠
      wSrcs wIterB.fromIdx
        ((0 : Int) - wIterB.outAnchor.1 + wIterB.inAnchor.1,
         (0 : Int) - wIterB.outAnchor.2 + wIterB.inAnchor.2) := by
  refine ⟨by decide, by decide, by decide⟩

/-- C5 amended: under the sequential in-order execution of a sample's paste
iterations (the overlap branch of `RunImpl`), the LAST iteration in list
order whose destination rectangle covers a pixel determines that pixel's
final stored value; in particular, for two overlapping iterations A before
B with no later iteration covering the pixel, B's source value wins. -/
theorem runSeq_last_covering_iteration_wins
    (conv : Int → Int) (srcs : Nat → Int × Int → Int) (iters : List PasteIter)
    (canvas : Int × Int → Int) (p : Int × Int) (i : Nat) (hi : i < iters.length)
    (hp : inRect (iters.getD i dIter).outAnchor (iters.getD i dIter).inShape p)
    (hlast : ∀ j, j < iters.length → i < j →
      ¬ inRect (iters.getD j dIter).outAnchor (iters.getD j dIter).inShape p) :
    runSeq conv srcs iters canvas p =
      conv (srcs (iters.getD i dIter).fromIdx
        (p.1 - (iters.getD i dIter).outAnchor.1 + (iters.getD i dIter).inAnchor.1,
         p.2 - (iters.getD i dIter).outAnchor.2 + (iters.getD i dIter).inAnchor.2)) := by
  induction iters generalizing i canvas with
  | nil => simp at hi
  | cons a l ih =>
      have hstep : runSeq conv srcs (a :: l) canvas =
          runSeq conv srcs l (pasteOne conv srcs a canvas) := rfl
      rw [hstep]
      cases i with
      | zero =>
          have hnone : ∀ it ∈ l, ¬ inRect it.outAnchor it.inShape p := by
            intro it hit
            obtain ⟨j, hj, hgj⟩ := List.mem_iff_getElem.mp hit
            have := hlast (j + 1) (by simpa using Nat.succ_lt_succ hj) (Nat.succ_pos j)
            rw [List.getD_cons_succ, List.getD_eq_getElem _ _ hj, hgj] at this
            exact this
          rw [runSeq_not_covered conv srcs l _ p hnone]
          simp only [pasteOne]
          rw [if_pos (by exact hp)]
          rfl
      | succ i0 =>
          have hi0 : i0 < l.length := by simpa using hi
          have hp0 : inRect (l.getD i0 dIter).outAnchor (l.getD i0 dIter).inShape p := by
            rw [List.getD_cons_succ] at hp
            exact hp
          have hlast0 : ∀ j, j < l.length → i0 < j →
              ¬ inRect (l.getD j dIter).outAnchor (l.getD j dIter).inShape p := by
            intro j hj hij
            have := hlast (j + 1) (by simpa using Nat.succ_lt_succ hj) (Nat.succ_lt_succ hij)
            rw [List.getD_cons_succ] at this
            exact this
          rw [ih _ i0 hi0 hp0 hlast0]
          rw [List.getD_cons_succ]

theorem runSeq_last_covering_iteration_wins_witness :
    runSeq (fun v => v) wSrcs [wIterA, wIterB] (fun _ => 0) (0, 0) =
      (fun v => v) (wSrcs ([wIterA, wIterB].getD 1 dIter).fromIdx
        ((0 : Int) - ([wIterA, wIterB].getD 1 dIter).outAnchor.1 +
          ([wIterA, wIterB].getD 1 dIter).inAnchor.1,
         (0 : Int) - ([wIterA, wIterB].getD 1 dIter).outAnchor.2 +
          ([wIterA, wIterB].getD 1 dIter).inAnchor.2)) :=
  runSeq_last_covering_iteration_wins (fun v => v) wSrcs [wIterA, wIterB] (fun _ => 0)
    (0, 0) 1 (by decide) (by decide) (by decide)

theorem pasteOne_comm (conv : Int → Int) (srcs : Nat → Int × Int → Int)
    (a b : PasteIter) (hd : destDisjoint a b) (c : Int × Int → Int) :
    pasteOne conv srcs a (pasteOne conv srcs b c) =
      pasteOne conv srcs b (pasteOne conv srcs a c) := by
  funext p
  by_cases hA : inRect a.outAnchor a.inShape p
  · have hB : ¬ inRect b.outAnchor b.inShape p := fun hB => hd p ⟨hA, hB⟩
    simp [pasteOne, hA, hB]
  · by_cases hB : inRect b.outAnchor b.inShape p
    · simp [pasteOne, hA, hB]
    · simp [pasteOne, hA, hB]

theorem destDisjoint_symm : Symmetric destDisjoint := by
  intro a b h p hcon
  exact h p ⟨hcon.2, hcon.1⟩

/-- C6: for a sample whose paste iterations have pairwise disjoint
destination rectangles (the precondition of the independent-work-item
branch of `RunImpl`), executing the iterations in any order — any
permutation of the dispatch order — produces an output canvas identical to
executing them in the original list order. -/
theorem runSeq_perm_of_disjoint
    (conv : Int → Int) (srcs : Nat → Int × Int → Int)
    (l l2 : List PasteIter) (hperm : l.Perm l2)
    (hdisj : l.Pairwise destDisjoint) (canvas : Int × Int → Int) :
    runSeq conv srcs l canvas = runSeq conv srcs l2 canvas := by
  revert hdisj canvas
  induction hperm with
  | nil => intro _ canvas; rfl
  | cons a h ih =>
      intro hdisj canvas
      exact ih hdisj.of_cons (pasteOne conv srcs a canvas)
  | swap x y l =>
      intro hdisj canvas
      have hyx : destDisjoint y x :=
        (List.pairwise_cons.mp hdisj).1 x (List.mem_cons_self x l)
      show runSeq conv srcs l (pasteOne conv srcs x (pasteOne conv srcs y canvas)) =
        runSeq conv srcs l (pasteOne conv srcs y (pasteOne conv srcs x canvas))
      rw [pasteOne_comm conv srcs x y (destDisjoint_symm hyx) canvas]
  | trans hxy hyz ihxy ihyz =>
      intro hdisj canvas
      have hd2 := (hxy.pairwise_iff (fun h => destDisjoint_symm h)).mp hdisj
      rw [ihxy hdisj canvas, ihyz hd2 canvas]

theorem runSeq_perm_of_disjoint_witness :
    runSeq (fun v => v) wSrcs [wIterA, wIterD2] (fun _ => 0) =
      runSeq (fun v => v) wSrcs [wIterD2, wIterA] (fun _ => 0) :=
  runSeq_perm_of_disjoint (fun v => v) wSrcs [wIterA, wIterD2] [wIterD2, wIterA]
    (List.Perm.swap wIterD2 wIterA [])
    (by
      refine List.pairwise_cons.mpr ⟨?_, List.pairwise_singleton _ _⟩
      intro b hb p hcon
      have hb2 : b = wIterD2 := List.mem_singleton.mp hb
      subst hb2
      obtain ⟨h1, h2⟩ := hcon
      simp only [wIterA, wIterD2, inRect] at h1 h2
      omega)
    (fun _ => 0)
